import Mathlib

/-!
Shallow embedding of the hsd-ens-resolution plugin (lib/recursive.js):
an ENS-intercepting recursive DNS server.  The embedding models the
DNS wire data that this code touches, the bounded LRU response cache
(external collaborator blru: a map from keys to values kept in
recency order, get promotes, insertion past capacity evicts the
least-recently-used entry), the cache key helper toKey, and the
query router RecursiveServer.resolve together with the signing glue
RecursiveServer.sign.  External collaborators (the bns delegation
resolver, the ethereum registry client, the hsig signer, the wire
codec) are passed in as function parameters or modelled as an
abstract inverse pair, per the spec's scoping (wire codec and
collaborator internals are non-goals).  Time (Date.now()) is passed
explicitly in milliseconds.
-/

namespace HsdEns

/-! ## Decimal rendering, used by toKey (JS type.toString(10)) -/

/-- Fuel-driven decimal digit accumulator: renders n in base 10 in front
of acc, least significant digit innermost.  Mirrors a standard decimal
to-string conversion; fuel is at least one more than the number of
divisions by ten, so it never runs out when fuel > n. -/
def decDigitsCore : Nat → Nat → List Char → List Char
  | 0, _, acc => acc
  | fuel + 1, n, acc =>
    if n < 10 then Char.ofNat (48 + n % 10) :: acc
    else decDigitsCore fuel (n / 10) (Char.ofNat (48 + n % 10) :: acc)

/-- Decimal digit list of a natural number, most significant first. -/
def decDigits (n : Nat) : List Char :=
  decDigitsCore (n + 1) n []

/-- Decimal string rendering of a natural number (JS n.toString(10)). -/
def decRepr (n : Nat) : String :=
  ⟨decDigits n⟩

/-- Value of a digit list, inverse of decDigitsCore on its output. -/
def decVal (l : List Char) : Nat :=
  l.foldl (fun acc c => 10 * acc + (c.toNat - 48)) 0

/-! ## DNS wire model (the bns wire fields this code reads or writes) -/

/-- DNS question: a name and a record-type code (bns wire.Question). -/
structure Question where
  name : String
  qtype : Nat
deriving DecidableEq

/-- TXT record data (bns wire.TXTRecord): a list of character strings. -/
structure TXTRecord where
  txt : List String
deriving DecidableEq

/-- Record data: the TXT payloads this code synthesizes, or opaque bytes
for any other record type carried in a delegated response. -/
inductive RData where
  | txt (rd : TXTRecord)
  | other (raw : List Nat)
deriving DecidableEq

/-- DNS resource record (the bns wire.Record fields this code sets). -/
structure Record where
  name : String
  rtype : Nat
  ttl : Nat
  data : RData
deriving DecidableEq

/-- DNS message (the bns wire.Message fields this code reads or sets:
id, opcode, the DNSSEC-authenticated ad bit, question, answer). -/
structure Message where
  id : Nat
  opcode : Nat
  ad : Bool
  question : List Question
  answer : List Record
deriving DecidableEq

/-- Standard-query opcode (bns wire.opcodes.QUERY). -/
def opcodes.QUERY : Nat := 0

/-- TXT record-type code (bns wire.types.TXT). -/
def types.TXT : Nat := 16

/-- Compact wire encoding of a message.  The codec is an external bns
library assumed correct (spec declares it a non-goal), so it is
modelled as an abstract container whose decode is the exact inverse
of compress. -/
structure Raw where
  msg : Message
deriving DecidableEq

/-- Message.compress (external codec): encode to compact form. -/
def Message.compress (m : Message) : Raw := ⟨m⟩

/-- Message.decode (external codec): decode a compact encoding. -/
def Message.decode (r : Raw) : Message := r.msg

/-! ## The bounded LRU store (external collaborator blru), at the one
instantiation this code uses: string keys, timestamped raw values. -/

/-- Cache slot stored by ENSCache.set: insertion time (ms) and the
compact-encoded message. -/
structure CacheItem where
  time : Nat
  raw : Raw
deriving DecidableEq

/-- Bounded LRU store (blru).  Items are kept most-recently-used first;
a map never holds two entries with one key. -/
structure LRU where
  capacity : Nat
  items : List (String × CacheItem)
deriving DecidableEq

/-- Drop every entry with the given key (the map update/removal step). -/
def LRU.removeKey (l : List (String × CacheItem)) (k : String) :
    List (String × CacheItem) :=
  l.filter (fun p => decide (p.1 ≠ k))

/-- LRU.set: insert or overwrite the key at most-recent position, then
evict from the least-recently-used end while over capacity. -/
def LRU.set (c : LRU) (k : String) (v : CacheItem) : LRU :=
  ⟨c.capacity, ((k, v) :: LRU.removeKey c.items k).take c.capacity⟩

/-- LRU.get: look the key up; on a hit, promote the entry to the
most-recent position.  Returns the value found and the updated store
(the JS object mutates in place; state is passed explicitly here). -/
def LRU.get (c : LRU) (k : String) : Option CacheItem × LRU :=
  match c.items.find? (fun p => decide (p.1 = k)) with
  | none => (none, c)
  | some p => (some p.2, ⟨c.capacity, p :: LRU.removeKey c.items k⟩)

/-! ## ENSCache (lib/recursive.js lines 42-71) and toKey (lines 296-303) -/

/-- JS toLowerCase: on the ASCII names DNS carries this maps each
basic-latin capital to its lower-case form and leaves every other
character unchanged (Char.toLower is exactly that map). -/
def strLower (s : String) : String :=
  ⟨s.data.map Char.toLower⟩

/-- Cache key: lowercased name, a semicolon, the decimal type code
(toKey, lib/recursive.js lines 296-303). -/
def toKey (name : String) (type : Nat) : String :=
  strLower name ++ ";" ++ decRepr type

/-- Freshness window in milliseconds: 6 * 60 * 60 * 1000. -/
def freshWindow : Nat := 6 * 60 * 60 * 1000

/-- ENSCache: a bounded LRU of compact-encoded messages. -/
structure ENSCache where
  cache : LRU
deriving DecidableEq

/-- ENSCache constructor: new LRU(size), empty. -/
def ENSCache.create (size : Nat) : ENSCache := ⟨⟨size, []⟩⟩

/-- ENSCache.set: store the compact encoding with the current time. -/
def ENSCache.set (c : ENSCache) (now : Nat) (name : String) (type : Nat)
    (msg : Message) : ENSCache :=
  ⟨c.cache.set (toKey name type) ⟨now, msg.compress⟩⟩

/-- ENSCache.get: look up by key; absent, or absent-masking when the
entry is older than the freshness window (the entry stays in the
store, only the capacity policy removes it); else decode and return.
The underlying LRU access happens before the freshness check, exactly
as in the source, so recency is touched either way. -/
def ENSCache.get (c : ENSCache) (now : Nat) (name : String) (type : Nat) :
    Option Message × ENSCache :=
  match c.cache.get (toKey name type) with
  | (none, l) => (none, ⟨l⟩)
  | (some item, l) =>
    if now > item.time + freshWindow then (none, ⟨l⟩)
    else (some (Message.decode item.raw), ⟨l⟩)

/-- One externally visible cache operation, for stating properties of
arbitrary operation sequences. -/
inductive CacheOp where
  | setOp (now : Nat) (name : String) (type : Nat) (msg : Message)
  | getOp (now : Nat) (name : String) (type : Nat)

/-- Run a sequence of cache operations left to right. -/
def ENSCache.run (c : ENSCache) : List CacheOp → ENSCache
  | [] => c
  | CacheOp.setOp now n t m :: rest => (ENSCache.set c now n t m).run rest
  | CacheOp.getOp now n t :: rest => ((ENSCache.get c now n t).2).run rest

/-! ## bns util.split / util.from, as used by the router -/

/-- Label-start offsets of a domain name (bns util.split): walk the
characters, skip a backslash escape and the character after it, record
a new label start after every unescaped dot, and finally record the
trailing label when one is pending. -/
def util.splitGo (len : Nat) : List Char → Nat → Nat → List Nat
  | [], _, last => if last < len then [last] else []
  | c :: rest, i, last =>
    if c = '\\' then
      match rest with
      | [] => if last < len then [last] else []
      | _ :: rest2 => util.splitGo len rest2 (i + 2) last
    else if c = '.' then
      last :: util.splitGo len rest (i + 1) (i + 1)
    else
      util.splitGo len rest (i + 1) last

/-- bns util.split: offsets at which the labels of the name start. -/
def util.split (name : String) : List Nat :=
  util.splitGo name.length name.data 0 0

/-- bns util.from (from is a Lean keyword, hence the prime): the suffix
of the name starting at the label with the given index; a negative
index counts from the end.  An index that is still negative after the
adjustment indexes the array out of range in JS and the substring call
degenerates to the whole name; an index at or past the end returns the
empty string. -/
def util.from_ (name : String) (labels : List Nat) (index : Int) : String :=
  let idx : Int := if index < 0 then index + (labels.length : Int) else index
  if idx < 0 then name
  else if (labels.length : Int) ≤ idx then ""
  else ⟨name.data.drop (labels.getD idx.toNat 0)⟩

/-! ## RecursiveServer (lib/recursive.js lines 78-290) -/

/-- The RecursiveServer state the resolution and signing paths read:
the secp256k1 private key (opaque content, modelled as a number) and
the ENS response cache (constructed with capacity 500). -/
structure RecursiveServer where
  key : Nat
  cache : ENSCache
deriving DecidableEq

/-- JS template-literal rendering of a possibly-null registry result:
a null interpolates as the text "null". -/
def jsStr : Option String → String
  | some s => s
  | none => "null"

/-- RecursiveServer.resolve (lib/recursive.js lines 231-285).  External
suspension points are parameters: resolveENS is the ethereum registry
client call, hnsResolve the delegated bns resolver.  Destructures the
first question (an empty question section makes the JS throw on
qs.name: modelled as an error); takes the rightmost label of the name;
on an exact match with "eth." runs the interception path (cache get,
then registry call, OpenAlias TXT synthesis, cache set), otherwise
returns the delegated resolver's answer on the unmodified question. -/
def RecursiveServer.resolve (resolveENS : String → Option String)
    (hnsResolve : Question → Message) (now : Nat)
    (s : RecursiveServer) (req : Message) :
    Except Unit (Message × RecursiveServer) :=
  match req.question with
  | [] => Except.error ()
  | qs :: _ =>
    let labels := util.split qs.name
    let label := util.from_ qs.name labels (-1)
    if label = "eth." then
      match ENSCache.get s.cache now qs.name types.TXT with
      | (some cached, c) => Except.ok (cached, { s with cache := c })
      | (none, c) =>
        let name : String := ⟨qs.name.data.dropLast⟩
        let res := resolveENS name
        let data := "oa1:eth " ++ "recipient_address=" ++ jsStr res ++ "; "
          ++ "recipient_name=" ++ name ++ ";"
        let msg : Message :=
          { id := 0
            opcode := opcodes.QUERY
            ad := false
            question := [qs]
            answer := [{ name := qs.name
                         rtype := types.TXT
                         ttl := 86000
                         data := RData.txt ⟨[data]⟩ }] }
        Except.ok (msg, { s with cache := ENSCache.set c now qs.name types.TXT msg })
    else
      Except.ok (hnsResolve qs, s)

/-- RecursiveServer.sign (lib/recursive.js lines 214-216): delegates to
hsig.sign(msg, this.key).  The hsig signer is an external collaborator,
passed as a parameter with an abstract tag type. -/
def RecursiveServer.sign {τ : Type} (hsigSign : Message → Nat → τ)
    (s : RecursiveServer) (msg : Message) (host : String) (port : Nat) : τ :=
  hsigSign msg s.key

end HsdEns

namespace HsdEns

/-! ## Development: decimal rendering -/

theorem decDigitsCore_irrel (n : Nat) : ∀ (fuel₁ fuel₂ : Nat) (acc : List Char),
    n < fuel₁ → n < fuel₂ →
    decDigitsCore fuel₁ n acc = decDigitsCore fuel₂ n acc := by
  induction n using Nat.strong_induction_on with
  | _ n ih =>
    intro fuel₁ fuel₂ acc h₁ h₂
    match fuel₁, fuel₂ with
    | f₁ + 1, f₂ + 1 =>
      by_cases h10 : n < 10
      · simp [decDigitsCore, h10]
      · have hdiv : n / 10 < n := Nat.div_lt_self (by omega) (by omega)
        simp only [decDigitsCore, h10, if_false]
        exact ih (n / 10) hdiv f₁ f₂ _ (by omega) (by omega)

theorem decDigitsCore_append (n : Nat) : ∀ (fuel : Nat) (acc : List Char),
    n < fuel →
    decDigitsCore fuel n acc = decDigitsCore fuel n [] ++ acc := by
  induction n using Nat.strong_induction_on with
  | _ n ih =>
    intro fuel acc h
    match fuel with
    | f + 1 =>
      by_cases h10 : n < 10
      · simp [decDigitsCore, h10]
      · have hdiv : n / 10 < n := Nat.div_lt_self (by omega) (by omega)
        simp only [decDigitsCore, h10, if_false]
        rw [ih (n / 10) hdiv f (Char.ofNat (48 + n % 10) :: acc) (by omega),
          ih (n / 10) hdiv f [Char.ofNat (48 + n % 10)] (by omega)]
        simp

theorem decDigits_lt10 (n : Nat) (h : n < 10) :
    decDigits n = [Char.ofNat (48 + n % 10)] := by
  simp [decDigits, decDigitsCore, h]

theorem decDigits_ge10 (n : Nat) (h : ¬ n < 10) :
    decDigits n = decDigits (n / 10) ++ [Char.ofNat (48 + n % 10)] := by
  have hdiv : n / 10 < n := Nat.div_lt_self (by omega) (by omega)
  show decDigitsCore (n + 1) n [] = _
  rw [show decDigitsCore (n + 1) n [] =
      decDigitsCore n (n / 10) [Char.ofNat (48 + n % 10)] by
    simp [decDigitsCore, h]]
  rw [decDigitsCore_append (n / 10) n _ (by omega),
    decDigitsCore_irrel (n / 10) n (n / 10 + 1) [] (by omega) (by omega)]
  rfl

theorem toNat_digitChar (r : Nat) (h : r < 10) :
    (Char.ofNat (48 + r)).toNat = 48 + r := by
  interval_cases r <;> decide

theorem digitChar_ne_semi (r : Nat) (h : r < 10) :
    Char.ofNat (48 + r) ≠ ';' := by
  interval_cases r <;> decide

theorem decVal_decDigits (n : Nat) : decVal (decDigits n) = n := by
  induction n using Nat.strong_induction_on with
  | _ n ih =>
    by_cases h10 : n < 10
    · rw [decDigits_lt10 n h10]
      simp [decVal, toNat_digitChar (n % 10) (Nat.mod_lt n (by omega))]
      omega
    · have hdiv : n / 10 < n := Nat.div_lt_self (by omega) (by omega)
      rw [decDigits_ge10 n h10]
      simp only [decVal, List.foldl_append] at *
      rw [ih (n / 10) hdiv]
      simp [toNat_digitChar (n % 10) (Nat.mod_lt n (by omega))]
      omega

theorem decDigits_inj {a b : Nat} (h : decDigits a = decDigits b) : a = b := by
  have := congrArg decVal h
  rwa [decVal_decDigits, decVal_decDigits] at this

theorem semi_not_mem_decDigits (n : Nat) : ';' ∉ decDigits n := by
  induction n using Nat.strong_induction_on with
  | _ n ih =>
    by_cases h10 : n < 10
    · rw [decDigits_lt10 n h10]
      intro hmem
      rcases List.mem_singleton.mp hmem with h
      exact digitChar_ne_semi (n % 10) (Nat.mod_lt n (by omega)) h.symm
    · have hdiv : n / 10 < n := Nat.div_lt_self (by omega) (by omega)
      rw [decDigits_ge10 n h10]
      intro hmem
      rcases List.mem_append.mp hmem with h | h
      · exact ih (n / 10) hdiv h
      · exact digitChar_ne_semi (n % 10) (Nat.mod_lt n (by omega))
          (List.mem_singleton.mp h).symm

end HsdEns

namespace HsdEns

/-! ## Development: strings and the cache key -/

theorem str_data_append (a b : String) : (a ++ b).data = a.data ++ b.data := rfl

theorem str_ext {a b : String} (h : a.data = b.data) : a = b := by
  cases a
  cases b
  cases h
  rfl

theorem sep_split (c : Char) : ∀ (x₁ x₂ y₁ y₂ : List Char),
    c ∉ x₁ → c ∉ x₂ → x₁ ++ c :: y₁ = x₂ ++ c :: y₂ → x₁ = x₂ ∧ y₁ = y₂ := by
  intro x₁
  induction x₁ with
  | nil =>
    intro x₂ y₁ y₂ h₁ h₂ he
    match x₂ with
    | [] => simpa using he
    | a :: x₂' =>
      simp only [List.nil_append, List.cons_append, List.cons.injEq] at he
      exact absurd (he.1 ▸ List.mem_cons_self a x₂') h₂
  | cons a x₁' ih =>
    intro x₂ y₁ y₂ h₁ h₂ he
    match x₂ with
    | [] =>
      simp only [List.cons_append, List.nil_append, List.cons.injEq] at he
      exact absurd (he.1 ▸ List.mem_cons_self a x₁') (he.1 ▸ h₁)
    | b :: x₂' =>
      simp only [List.cons_append, List.cons.injEq] at he
      have hrec := ih x₂' y₁ y₂ (fun hm => h₁ (List.mem_cons_of_mem a hm))
        (fun hm => h₂ (List.mem_cons_of_mem b hm)) he.2
      exact ⟨by rw [he.1, hrec.1], hrec.2⟩

theorem toKey_data (name : String) (type : Nat) :
    (toKey name type).data = (strLower name).data ++ ';' :: decDigits type := by
  show ((strLower name ++ ";") ++ decRepr type).data = _
  rw [str_data_append, str_data_append]
  simp [decRepr]

theorem toKey_eq_iff (N M : String) (T S : Nat) :
    toKey N T = toKey M S ↔ (strLower N = strLower M ∧ T = S) := by
  constructor
  · intro h
    have hd := congrArg String.data h
    rw [toKey_data, toKey_data] at hd
    have hrev := congrArg List.reverse hd
    simp only [List.reverse_append, List.reverse_cons] at hrev
    rw [List.append_assoc, List.append_assoc, List.singleton_append,
      List.singleton_append] at hrev
    have hsp := sep_split ';' (decDigits T).reverse (decDigits S).reverse
      (strLower N).data.reverse (strLower M).data.reverse
      (fun hm => semi_not_mem_decDigits T (List.mem_reverse.mp hm))
      (fun hm => semi_not_mem_decDigits S (List.mem_reverse.mp hm)) hrev
    refine ⟨str_ext (List.reverse_injective hsp.2), decDigits_inj ?_⟩
    exact List.reverse_injective hsp.1
  · intro h
    show strLower N ++ ";" ++ decRepr T = strLower M ++ ";" ++ decRepr S
    rw [h.1, h.2]

end HsdEns

namespace HsdEns

/-! ## Development: the LRU store and the cache -/

theorem removeKey_length_lt {l : List (String × CacheItem)} {k : String}
    {p : String × CacheItem}
    (h : l.find? (fun p => decide (p.1 = k)) = some p) :
    (LRU.removeKey l k).length < l.length := by
  induction l with
  | nil => simp at h
  | cons a t ih =>
    by_cases ha : a.1 = k
    · have : LRU.removeKey (a :: t) k = LRU.removeKey t k := by
        simp [LRU.removeKey, List.filter, ha]
      rw [this]
      have := List.length_filter_le (fun p => decide (p.1 ≠ k)) t
      simp only [LRU.removeKey, List.length_cons]
      omega
    · rw [List.find?_cons_of_neg t (by simpa using ha)] at h
      have hrec := ih h
      have : LRU.removeKey (a :: t) k = a :: LRU.removeKey t k := by
        simp [LRU.removeKey, List.filter, ha]
      rw [this]
      simp only [List.length_cons]
      omega

theorem keyFree_set {c : LRU} {k k' : String} {v : CacheItem}
    (hk : k' ≠ k) (h : ∀ p ∈ c.items, p.1 ≠ k) :
    ∀ p ∈ (c.set k' v).items, p.1 ≠ k := by
  intro p hp
  have hp' := List.take_subset c.capacity _ hp
  rcases List.mem_cons.mp hp' with h1 | h1
  · rw [h1]
    exact hk
  · exact h p ((List.mem_filter.mp h1).1)

theorem keyFree_get {c : LRU} {k k' : String}
    (h : ∀ p ∈ c.items, p.1 ≠ k) :
    ∀ p ∈ ((c.get k').2).items, p.1 ≠ k := by
  intro p hp
  unfold LRU.get at hp
  rcases hfind : c.items.find? (fun p => decide (p.1 = k')) with _ | q
  · rw [hfind] at hp
    exact h p hp
  · rw [hfind] at hp
    simp only at hp
    rcases List.mem_cons.mp hp with h1 | h1
    · exact h p (h1 ▸ List.mem_of_find?_eq_some hfind)
    · exact h p ((List.mem_filter.mp h1).1)

theorem get_of_keyFree {c : LRU} {k : String}
    (h : ∀ p ∈ c.items, p.1 ≠ k) :
    c.get k = (none, c) := by
  unfold LRU.get
  rw [List.find?_eq_none.mpr (by intro x hx; simpa using h x hx)]

theorem lru_set_length (c : LRU) (k : String) (v : CacheItem) :
    (c.set k v).items.length ≤ c.capacity := by
  simp [LRU.set]

theorem lru_get_length {c : LRU} (k : String)
    (h : c.items.length ≤ c.capacity) :
    ((c.get k).2).items.length ≤ c.capacity := by
  unfold LRU.get
  rcases hfind : c.items.find? (fun p => decide (p.1 = k)) with _ | q
  · rw [hfind]
    exact h
  · rw [hfind]
    simp only [List.length_cons]
    have := removeKey_length_lt hfind
    omega

theorem lru_set_capacity (c : LRU) (k : String) (v : CacheItem) :
    (c.set k v).capacity = c.capacity := rfl

theorem lru_get_capacity (c : LRU) (k : String) :
    ((c.get k).2).capacity = c.capacity := by
  unfold LRU.get
  rcases hfind : c.items.find? (fun p => decide (p.1 = k)) with _ | q <;> rw [hfind]

end HsdEns


namespace HsdEns

theorem ens_get_snd (c : ENSCache) (now : Nat) (n : String) (t : Nat) :
    (ENSCache.get c now n t).2 = ⟨(c.cache.get (toKey n t)).2⟩ := by
  unfold ENSCache.get
  rcases hg : c.cache.get (toKey n t) with ⟨o, l⟩
  match o with
  | none => rfl
  | some item => by_cases hf : now > item.time + freshWindow <;> simp [hf]

theorem ens_run_keyFree {k : String} : ∀ (ops : List CacheOp) (c : ENSCache),
    (∀ p ∈ c.cache.items, p.1 ≠ k) →
    (∀ op ∈ ops, ∀ now n t m, op = CacheOp.setOp now n t m → toKey n t ≠ k) →
    ∀ p ∈ (c.run ops).cache.items, p.1 ≠ k := by
  intro ops
  induction ops with
  | nil =>
    intro c hc _
    exact hc
  | cons op rest ih =>
    intro c hc hops
    match op with
    | CacheOp.setOp now n t m =>
      refine ih _ ?_ (fun o ho => hops o (List.mem_cons_of_mem _ ho))
      exact keyFree_set (hops _ (List.mem_cons_self _ _) now n t m rfl) hc
    | CacheOp.getOp now n t =>
      refine ih _ ?_ (fun o ho => hops o (List.mem_cons_of_mem _ ho))
      show ∀ p ∈ ((ENSCache.get c now n t).2).cache.items, p.1 ≠ k
      rw [ens_get_snd]
      exact keyFree_get hc

theorem ens_get_of_keyFree {c : ENSCache} {N : String} {T : Nat} (now : Nat)
    (h : ∀ p ∈ c.cache.items, p.1 ≠ toKey N T) :
    c.get now N T = (none, c) := by
  unfold ENSCache.get
  rw [get_of_keyFree h]

theorem ens_run_length : ∀ (ops : List CacheOp) (c : ENSCache),
    c.cache.items.length ≤ c.cache.capacity →
    ((c.run ops).cache.items.length ≤ (c.run ops).cache.capacity ∧
      (c.run ops).cache.capacity = c.cache.capacity) := by
  intro ops
  induction ops with
  | nil =>
    intro c hc
    exact ⟨hc, rfl⟩
  | cons op rest ih =>
    intro c hc
    match op with
    | CacheOp.setOp now n t m =>
      have step := ih (c.set now n t m) (lru_set_length c.cache (toKey n t) ⟨now, m.compress⟩)
      exact ⟨step.1, step.2⟩
    | CacheOp.getOp now n t =>
      have hlen : ((ENSCache.get c now n t).2).cache.items.length ≤
          ((ENSCache.get c now n t).2).cache.capacity := by
        rw [ens_get_snd]
        show ((c.cache.get (toKey n t)).2).items.length ≤ (c.cache.get (toKey n t)).2.capacity
        rw [lru_get_capacity]
        exact lru_get_length _ hc
      have step := ih _ hlen
      refine ⟨step.1, ?_⟩
      show (((ENSCache.get c now n t).2).run rest).cache.capacity = c.cache.capacity
      rw [step.2, ens_get_snd]
      show ((c.cache.get (toKey n t)).2).capacity = c.cache.capacity
      exact lru_get_capacity _ _

end HsdEns

namespace HsdEns

theorem ens_get_after_set {c : ENSCache} {now now' : Nat} {N M : String}
    {T S : Nat} {R : Message}
    (hkey : toKey M S = toKey N T)
    (hcap : 1 ≤ c.cache.capacity)
    (h6 : now' ≤ now + freshWindow) :
    ((c.set now N T R).get now' M S).1 = some R := by
  obtain ⟨m, hm⟩ : ∃ m, c.cache.capacity = m + 1 := ⟨c.cache.capacity - 1, by omega⟩
  have hitems : ((c.set now N T R).cache).items
      = (toKey N T, ⟨now, R.compress⟩) ::
        (LRU.removeKey c.cache.items (toKey N T)).take m := by
    show (((toKey N T, ⟨now, R.compress⟩) ::
      LRU.removeKey c.cache.items (toKey N T)).take c.cache.capacity) = _
    rw [hm, List.take_succ_cons]
  unfold ENSCache.get LRU.get
  rw [hkey, hitems, List.find?_cons_of_pos _ (by simp)]
  simp only
  rw [if_neg (by show ¬ now' > now + freshWindow; omega)]
  rfl

theorem ens_set_full {c : ENSCache} {now : Nat} {N : String} {T : Nat}
    {R : Message}
    (hfull : c.cache.items.length = c.cache.capacity)
    (hfree : ∀ p ∈ c.cache.items, p.1 ≠ toKey N T)
    (hcap : 1 ≤ c.cache.capacity) :
    (c.set now N T R).cache.items
      = (toKey N T, ⟨now, R.compress⟩) :: c.cache.items.dropLast ∧
    (c.set now N T R).cache.items.length = c.cache.capacity := by
  have hrm : LRU.removeKey c.cache.items (toKey N T) = c.cache.items :=
    List.filter_eq_self.mpr (fun a ha => by simpa using hfree a ha)
  obtain ⟨m, hm⟩ : ∃ m, c.cache.capacity = m + 1 := ⟨c.cache.capacity - 1, by omega⟩
  constructor
  · show ((toKey N T, ⟨now, R.compress⟩) ::
      LRU.removeKey c.cache.items (toKey N T)).take c.cache.capacity = _
    rw [hrm, hm, List.take_succ_cons, List.dropLast_eq_take,
      show m = c.cache.items.length - 1 by omega]
  · show (((toKey N T, ⟨now, R.compress⟩) ::
      LRU.removeKey c.cache.items (toKey N T)).take c.cache.capacity).length = _
    rw [hrm, List.length_take, List.length_cons, hfull]
    omega

theorem ens_get_stale {c : ENSCache} {N : String} {T : Nat} {now : Nat}
    {it : CacheItem}
    (hfind : c.cache.items.find? (fun p => decide (p.1 = toKey N T))
      = some (toKey N T, it))
    (hstale : now > it.time + freshWindow) :
    (c.get now N T).1 = none ∧
    ((c.get now N T).2).cache.items.find? (fun p => decide (p.1 = toKey N T))
      = some (toKey N T, it) := by
  unfold ENSCache.get LRU.get
  rw [hfind]
  simp only
  rw [if_pos hstale]
  exact ⟨rfl, List.find?_cons_of_pos _ (by simp)⟩

theorem ens_get_found {c : ENSCache} {N : String} {T : Nat} {now : Nat}
    {it : CacheItem}
    (hfind : c.cache.items.find? (fun p => decide (p.1 = toKey N T))
      = some (toKey N T, it))
    (hfresh : ¬ now > it.time + freshWindow) :
    c.get now N T = (some (Message.decode it.raw),
      ⟨⟨c.cache.capacity,
        (toKey N T, it) :: LRU.removeKey c.cache.items (toKey N T)⟩⟩) := by
  unfold ENSCache.get LRU.get
  rw [hfind]
  simp only
  rw [if_neg hfresh]

end HsdEns

namespace HsdEns

/-! ## Development: the query router's three paths -/

theorem resolve_delegates (reg : String → Option String)
    (hns : Question → Message) (now : Nat) (s : RecursiveServer)
    (req : Message) (qs : Question) (rest : List Question)
    (hq : req.question = qs :: rest)
    (hl : util.from_ qs.name (util.split qs.name) (-1) ≠ "eth.") :
    RecursiveServer.resolve reg hns now s req = Except.ok (hns qs, s) := by
  unfold RecursiveServer.resolve
  rw [hq]
  simp only
  rw [if_neg hl]

theorem resolve_hit (reg : String → Option String)
    (hns : Question → Message) (now : Nat) (s : RecursiveServer)
    (req : Message) (qs : Question) (rest : List Question)
    (m : Message) (c : ENSCache)
    (hq : req.question = qs :: rest)
    (hl : util.from_ qs.name (util.split qs.name) (-1) = "eth.")
    (hc : ENSCache.get s.cache now qs.name types.TXT = (some m, c)) :
    RecursiveServer.resolve reg hns now s req
      = Except.ok (m, { s with cache := c }) := by
  unfold RecursiveServer.resolve
  rw [hq]
  simp only
  rw [if_pos hl, hc]

theorem resolve_miss (reg : String → Option String)
    (hns : Question → Message) (now : Nat) (s : RecursiveServer)
    (req : Message) (qs : Question) (rest : List Question) (c : ENSCache)
    (hq : req.question = qs :: rest)
    (hl : util.from_ qs.name (util.split qs.name) (-1) = "eth.")
    (hc : ENSCache.get s.cache now qs.name types.TXT = (none, c)) :
    RecursiveServer.resolve reg hns now s req
      = Except.ok
        (⟨0, opcodes.QUERY, false, [qs],
          [⟨qs.name, types.TXT, 86000, RData.txt ⟨["oa1:eth " ++ "recipient_address="
            ++ jsStr (reg ⟨qs.name.data.dropLast⟩) ++ "; " ++ "recipient_name="
            ++ (⟨qs.name.data.dropLast⟩ : String) ++ ";"]⟩⟩]⟩,
         { s with cache := (ENSCache.set c now qs.name types.TXT
            ⟨0, opcodes.QUERY, false, [qs],
              [⟨qs.name, types.TXT, 86000, RData.txt ⟨["oa1:eth " ++ "recipient_address="
                ++ jsStr (reg ⟨qs.name.data.dropLast⟩) ++ "; " ++ "recipient_name="
                ++ (⟨qs.name.data.dropLast⟩ : String) ++ ";"]⟩⟩]⟩) }) := by
  unfold RecursiveServer.resolve
  rw [hq]
  simp only
  rw [if_pos hl, hc]

end HsdEns

namespace HsdEns

/-! ## Claims -/

/-- C5: for all names N and types T, cache.get(N, T) performed after
cache.set(N, T, R) returns a response that decodes from the stored
compact encoding to the same content as R, provided at most 6 hours
elapsed between the set and the get and no capacity-driven eviction
removed the entry (for back-to-back set/get the only possible eviction
is the degenerate zero-capacity store, excluded by the capacity
hypothesis: set places the entry at the most-recent end, so a positive
capacity never evicts it). -/
theorem cache_roundtrip (c : ENSCache) (now₁ now₂ : Nat) (N : String)
    (T : Nat) (R : Message)
    (hcap : 1 ≤ c.cache.capacity) (h6 : now₂ ≤ now₁ + freshWindow) :
    ((ENSCache.set c now₁ N T R).get now₂ N T).1 = some R :=
  ens_get_after_set rfl hcap h6

/-- Witness for C5 at a concrete input, with the get exactly six hours
after the set (the boundary is still a hit: the code masks only
strictly older entries). -/
theorem cache_roundtrip_witness :
    ((ENSCache.set (ENSCache.create 500) 0 "alice.eth." 16
        ⟨0, 0, false, [⟨"alice.eth.", 16⟩], []⟩).get 21600000 "alice.eth." 16).1
      = some ⟨0, 0, false, [⟨"alice.eth.", 16⟩], []⟩ :=
  cache_roundtrip (ENSCache.create 500) 0 21600000 "alice.eth." 16
    ⟨0, 0, false, [⟨"alice.eth.", 16⟩], []⟩ (by decide) (by decide)

/-- C7: cache keys are case-insensitive in the name and specific to the
record type.  First: a get whose name lowercases to the same string as
the name of a previous set is a hit (same type, fresh, not evicted).
Second: two keys are equal exactly when the lowercased names agree and
the record types are equal, so entries differing in record type, or in
name other than by letter case, never collide or share an entry. -/
theorem cache_key_case_and_type :
    (∀ (c : ENSCache) (now now' : Nat) (N M : String) (T : Nat) (R : Message),
      strLower M = strLower N → 1 ≤ c.cache.capacity →
      now' ≤ now + freshWindow →
      ((ENSCache.set c now N T R).get now' M T).1 = some R) ∧
    (∀ (N M : String) (T S : Nat),
      toKey N T = toKey M S ↔ (strLower N = strLower M ∧ T = S)) := by
  constructor
  · intro c now now' N M T R hlow hcap h6
    refine ens_get_after_set ?_ hcap h6
    show strLower M ++ ";" ++ decRepr T = strLower N ++ ";" ++ decRepr T
    rw [hlow]
  · intro N M T S
    exact toKey_eq_iff N M T S

/-- Witness for C7: the spec's example, get of Example.ETH. after set of
example.eth. hits, and a concrete instance of the key-collision law. -/
theorem cache_key_case_and_type_witness :
    (((ENSCache.set (ENSCache.create 500) 0 "example.eth." 16
        ⟨0, 0, false, [⟨"example.eth.", 16⟩], []⟩).get 1 "Example.ETH." 16).1
      = some ⟨0, 0, false, [⟨"example.eth.", 16⟩], []⟩) ∧
    (toKey "alice.eth." 16 = toKey "ALICE.eth." 17 ↔
      (strLower "alice.eth." = strLower "ALICE.eth." ∧ 16 = 17)) :=
  ⟨cache_key_case_and_type.1 (ENSCache.create 500) 0 1 "example.eth."
      "Example.ETH." 16 ⟨0, 0, false, [⟨"example.eth.", 16⟩], []⟩
      (by decide) (by decide) (by decide),
    cache_key_case_and_type.2 "alice.eth." "ALICE.eth." 16 17⟩

/-- C9: resolve bases everything on the first question of the request:
for a request with a non-empty question section the response does not
depend on anything in the request other than the first question, and a
request with an empty question section fails (the JS destructuring
leaves qs undefined and qs.name throws) instead of returning a
response. -/
theorem resolve_first_question_only :
    (∀ (reg : String → Option String) (hns : Question → Message) (now : Nat)
      (s : RecursiveServer) (q : Question) (r₁ r₂ : List Question)
      (id₁ id₂ opc₁ opc₂ : Nat) (ad₁ ad₂ : Bool) (an₁ an₂ : List Record),
      RecursiveServer.resolve reg hns now s ⟨id₁, opc₁, ad₁, q :: r₁, an₁⟩
        = RecursiveServer.resolve reg hns now s ⟨id₂, opc₂, ad₂, q :: r₂, an₂⟩) ∧
    (∀ (reg : String → Option String) (hns : Question → Message) (now : Nat)
      (s : RecursiveServer) (id opc : Nat) (ad : Bool) (an : List Record),
      RecursiveServer.resolve reg hns now s ⟨id, opc, ad, [], an⟩
        = Except.error ()) :=
  ⟨fun _ _ _ _ _ _ _ _ _ _ _ _ _ _ _ => rfl, fun _ _ _ _ _ _ _ _ => rfl⟩

/-- C10: the authentication tag produced by sign(msg, host, port)
depends only on the message and the server's private key: the peer
host and port arguments are ignored (the code calls
hsig.sign(msg, this.key) and never reads them). -/
theorem sign_ignores_peer : ∀ (τ : Type) (hsigSign : Message → Nat → τ)
    (s : RecursiveServer) (msg : Message) (h₁ h₂ : String) (p₁ p₂ : Nat),
    RecursiveServer.sign hsigSign s msg h₁ p₁
      = RecursiveServer.sign hsigSign s msg h₂ p₂ :=
  fun _ _ _ _ _ _ _ _ => rfl

end HsdEns

namespace HsdEns

/-- C1 (amended): routing compares the rightmost label to the reserved
label by exact, case-sensitive string equality, not case-normalized
comparison.  When the top-level label is exactly "eth." the query is
handled entirely by the interception path and the Delegation Adapter
is never invoked (the result does not depend on it); for any other
top-level label, including upper-case spellings of the reserved label,
the unmodified question is passed to the Delegation Adapter, its
result is returned verbatim with the server state untouched, and the
external-registry client is never invoked (the result does not depend
on it). -/
theorem routing_by_exact_toplabel
    (reg reg₁ reg₂ : String → Option String)
    (hns hns₁ hns₂ : Question → Message) (now : Nat)
    (s : RecursiveServer) (req : Message) (qs : Question)
    (rest : List Question) (hq : req.question = qs :: rest) :
    (util.from_ qs.name (util.split qs.name) (-1) = "eth." →
      RecursiveServer.resolve reg hns₁ now s req
        = RecursiveServer.resolve reg hns₂ now s req) ∧
    (util.from_ qs.name (util.split qs.name) (-1) ≠ "eth." →
      RecursiveServer.resolve reg₁ hns now s req = Except.ok (hns qs, s) ∧
      RecursiveServer.resolve reg₁ hns now s req
        = RecursiveServer.resolve reg₂ hns now s req) := by
  constructor
  · intro hl
    rcases hc : ENSCache.get s.cache now qs.name types.TXT with ⟨o, c⟩
    match o, hc with
    | some m, hc =>
      rw [resolve_hit reg hns₁ now s req qs rest m c hq hl hc,
        resolve_hit reg hns₂ now s req qs rest m c hq hl hc]
    | none, hc =>
      rw [resolve_miss reg hns₁ now s req qs rest c hq hl hc,
        resolve_miss reg hns₂ now s req qs rest c hq hl hc]
  · intro hl
    constructor
    · exact resolve_delegates reg₁ hns now s req qs rest hq hl
    · rw [resolve_delegates reg₁ hns now s req qs rest hq hl,
        resolve_delegates reg₂ hns now s req qs rest hq hl]

/-- Witness for C1 (amended) at concrete inputs: a query for alice.eth.
resolves identically under two different delegation adapters, and a
query for example.com. returns the adapter's answer verbatim. -/
theorem routing_by_exact_toplabel_witness :
    (RecursiveServer.resolve (fun _ => some "0xABCD")
        (fun _ => ⟨1, 0, false, [], []⟩) 0 ⟨0, ENSCache.create 500⟩
        ⟨7, 0, false, [⟨"alice.eth.", 16⟩], []⟩
      = RecursiveServer.resolve (fun _ => some "0xABCD")
        (fun _ => ⟨2, 0, false, [], []⟩) 0 ⟨0, ENSCache.create 500⟩
        ⟨7, 0, false, [⟨"alice.eth.", 16⟩], []⟩) ∧
    (RecursiveServer.resolve (fun _ => some "0xABCD")
        (fun q => ⟨9, 0, true, [q], []⟩) 0 ⟨0, ENSCache.create 500⟩
        ⟨7, 0, false, [⟨"example.com.", 16⟩], []⟩
      = Except.ok (⟨9, 0, true, [⟨"example.com.", 16⟩], []⟩,
          ⟨0, ENSCache.create 500⟩)) :=
  ⟨(routing_by_exact_toplabel (fun _ => some "0xABCD") (fun _ => some "0xABCD")
      (fun _ => some "0xABCD") (fun q => ⟨9, 0, true, [q], []⟩)
      (fun _ => ⟨1, 0, false, [], []⟩) (fun _ => ⟨2, 0, false, [], []⟩) 0
      ⟨0, ENSCache.create 500⟩ ⟨7, 0, false, [⟨"alice.eth.", 16⟩], []⟩
      ⟨"alice.eth.", 16⟩ [] rfl).1 (by decide),
    ((routing_by_exact_toplabel (fun _ => some "0xABCD") (fun _ => some "0xABCD")
      (fun _ => some "0xABCD") (fun q => ⟨9, 0, true, [q], []⟩)
      (fun _ => ⟨1, 0, false, [], []⟩) (fun _ => ⟨2, 0, false, [], []⟩) 0
      ⟨0, ENSCache.create 500⟩ ⟨7, 0, false, [⟨"example.com.", 16⟩], []⟩
      ⟨"example.com.", 16⟩ [] rfl).2 (by decide)).1⟩

/-- Counterexample to C1 as stated: the name alice.ETH. has a top-level
label that equals the reserved label under case-normalized comparison,
yet the code routes it to the Delegation Adapter — two different
adapters produce two different responses, so the adapter is invoked,
contradicting the claim that such queries are handled entirely by the
interception path. -/
theorem routing_case_normalized_counterexample :
    (strLower (util.from_ "alice.ETH." (util.split "alice.ETH.") (-1))
      = "eth.") ∧
    RecursiveServer.resolve (fun _ => some "0xABCD")
        (fun _ => ⟨1, 0, false, [], []⟩) 0 ⟨0, ENSCache.create 500⟩
        ⟨7, 0, false, [⟨"alice.ETH.", 16⟩], []⟩
      = Except.ok (⟨1, 0, false, [], []⟩, ⟨0, ENSCache.create 500⟩) ∧
    RecursiveServer.resolve (fun _ => some "0xABCD")
        (fun _ => ⟨2, 0, false, [], []⟩) 0 ⟨0, ENSCache.create 500⟩
        ⟨7, 0, false, [⟨"alice.ETH.", 16⟩], []⟩
      = Except.ok (⟨2, 0, false, [], []⟩, ⟨0, ENSCache.create 500⟩) ∧
    (⟨1, 0, false, [], []⟩ : Message) ≠ ⟨2, 0, false, [], []⟩ :=
  ⟨by decide, rfl, rfl, by decide⟩

end HsdEns

namespace HsdEns

/-- C2: on an intercepted query that misses the cache and for which the
registry returns an address a, resolve returns a response whose answer
section is exactly one TXT record with the query name, ttl 86000 and
payload "oa1:eth recipient_address=<a>; recipient_name=<bare>;" where
bare is the query name with its trailing character (the root dot)
stripped; the question section echoes the original question, the
message id is the sentinel 0, the opcode is the standard query opcode
and the DNSSEC-authenticated flag is false.  The same message is also
stored in the cache. -/
theorem synth_response_shape (reg : String → Option String)
    (hns : Question → Message) (now : Nat) (s : RecursiveServer)
    (req : Message) (qs : Question) (rest : List Question) (c : ENSCache)
    (a : String)
    (hq : req.question = qs :: rest)
    (hl : util.from_ qs.name (util.split qs.name) (-1) = "eth.")
    (hc : ENSCache.get s.cache now qs.name types.TXT = (none, c))
    (ha : reg ⟨qs.name.data.dropLast⟩ = some a) :
    RecursiveServer.resolve reg hns now s req
      = Except.ok
        (⟨0, opcodes.QUERY, false, [qs],
          [⟨qs.name, types.TXT, 86000, RData.txt ⟨["oa1:eth "
            ++ "recipient_address=" ++ a ++ "; " ++ "recipient_name="
            ++ (⟨qs.name.data.dropLast⟩ : String) ++ ";"]⟩⟩]⟩,
         { s with cache := (ENSCache.set c now qs.name types.TXT
            ⟨0, opcodes.QUERY, false, [qs],
              [⟨qs.name, types.TXT, 86000, RData.txt ⟨["oa1:eth "
                ++ "recipient_address=" ++ a ++ "; " ++ "recipient_name="
                ++ (⟨qs.name.data.dropLast⟩ : String) ++ ";"]⟩⟩]⟩) }) := by
  have h := resolve_miss reg hns now s req qs rest c hq hl hc
  rw [ha] at h
  exact h

/-- Witness for C2: the spec's Scenario A, a query for alice.eth. with
the registry returning 0xABCD. -/
theorem synth_response_shape_witness :
    RecursiveServer.resolve (fun _ => some "0xABCD")
        (fun q => ⟨9, 0, true, [q], []⟩) 0 ⟨0, ENSCache.create 500⟩
        ⟨7, 0, false, [⟨"alice.eth.", 16⟩], []⟩
      = Except.ok
        (⟨0, 0, false, [⟨"alice.eth.", 16⟩],
          [⟨"alice.eth.", 16, 86000, RData.txt
            ⟨["oa1:eth recipient_address=0xABCD; recipient_name=alice.eth;"]⟩⟩]⟩,
         ⟨0, ⟨⟨500, [("alice.eth.;16", ⟨0, Message.compress
            ⟨0, 0, false, [⟨"alice.eth.", 16⟩],
              [⟨"alice.eth.", 16, 86000, RData.txt
                ⟨["oa1:eth recipient_address=0xABCD; recipient_name=alice.eth;"]⟩⟩]⟩⟩)]⟩⟩⟩) :=
  synth_response_shape (fun _ => some "0xABCD")
    (fun q => ⟨9, 0, true, [q], []⟩) 0 ⟨0, ENSCache.create 500⟩
    ⟨7, 0, false, [⟨"alice.eth.", 16⟩], []⟩ ⟨"alice.eth.", 16⟩ [] 
    (ENSCache.create 500) "0xABCD" rfl (by decide) rfl rfl

/-- C3: on an intercepted query that misses the cache and for which the
registry yields no resolvable address, resolve still returns a
positive response — one TXT answer whose payload carries the JS
rendering of the null result ("null") as placeholder in the
recipient_address field — rather than failing or producing a
name-not-found response. -/
theorem synth_no_address_positive (reg : String → Option String)
    (hns : Question → Message) (now : Nat) (s : RecursiveServer)
    (req : Message) (qs : Question) (rest : List Question) (c : ENSCache)
    (hq : req.question = qs :: rest)
    (hl : util.from_ qs.name (util.split qs.name) (-1) = "eth.")
    (hc : ENSCache.get s.cache now qs.name types.TXT = (none, c))
    (ha : reg ⟨qs.name.data.dropLast⟩ = none) :
    RecursiveServer.resolve reg hns now s req
      = Except.ok
        (⟨0, opcodes.QUERY, false, [qs],
          [⟨qs.name, types.TXT, 86000, RData.txt ⟨["oa1:eth "
            ++ "recipient_address=" ++ "null" ++ "; " ++ "recipient_name="
            ++ (⟨qs.name.data.dropLast⟩ : String) ++ ";"]⟩⟩]⟩,
         { s with cache := (ENSCache.set c now qs.name types.TXT
            ⟨0, opcodes.QUERY, false, [qs],
              [⟨qs.name, types.TXT, 86000, RData.txt ⟨["oa1:eth "
                ++ "recipient_address=" ++ "null" ++ "; " ++ "recipient_name="
                ++ (⟨qs.name.data.dropLast⟩ : String) ++ ";"]⟩⟩]⟩) }) := by
  have h := resolve_miss reg hns now s req qs rest c hq hl hc
  rw [ha] at h
  exact h

/-- Witness for C3: a query for ghost.eth. with the registry returning
no address still produces a positive single-TXT response with the
placeholder text in the address field. -/
theorem synth_no_address_positive_witness :
    RecursiveServer.resolve (fun _ => none)
        (fun q => ⟨9, 0, true, [q], []⟩) 0 ⟨0, ENSCache.create 500⟩
        ⟨7, 0, false, [⟨"ghost.eth.", 16⟩], []⟩
      = Except.ok
        (⟨0, 0, false, [⟨"ghost.eth.", 16⟩],
          [⟨"ghost.eth.", 16, 86000, RData.txt
            ⟨["oa1:eth recipient_address=null; recipient_name=ghost.eth;"]⟩⟩]⟩,
         ⟨0, ⟨⟨500, [("ghost.eth.;16", ⟨0, Message.compress
            ⟨0, 0, false, [⟨"ghost.eth.", 16⟩],
              [⟨"ghost.eth.", 16, 86000, RData.txt
                ⟨["oa1:eth recipient_address=null; recipient_name=ghost.eth;"]⟩⟩]⟩⟩)]⟩⟩⟩) :=
  synth_no_address_positive (fun _ => none)
    (fun q => ⟨9, 0, true, [q], []⟩) 0 ⟨0, ENSCache.create 500⟩
    ⟨7, 0, false, [⟨"ghost.eth.", 16⟩], []⟩ ⟨"ghost.eth.", 16⟩ []
    (ENSCache.create 500) rfl (by decide) rfl rfl

end HsdEns

namespace HsdEns

/-- C4: on an intercepted query whose (name, TXT) key holds a cache
entry set less than six hours before now and still present, resolve
returns the decoded cached message: the result does not depend on the
registry or on the delegation adapter (neither is invoked), no new
message is synthesized, and the returned message is exactly the one
whose encoding was cached; the only state change is the LRU promotion
performed by the read. -/
theorem fresh_hit_short_circuits
    (reg reg₁ reg₂ : String → Option String)
    (hns hns₁ hns₂ : Question → Message) (now t : Nat)
    (s : RecursiveServer) (req : Message) (qs : Question)
    (rest : List Question) (R : Message)
    (hq : req.question = qs :: rest)
    (hl : util.from_ qs.name (util.split qs.name) (-1) = "eth.")
    (hfind : s.cache.cache.items.find?
        (fun p => decide (p.1 = toKey qs.name types.TXT))
      = some (toKey qs.name types.TXT, ⟨t, R.compress⟩))
    (hfresh : now < t + freshWindow) :
    (RecursiveServer.resolve reg₁ hns₁ now s req
      = RecursiveServer.resolve reg₂ hns₂ now s req) ∧
    RecursiveServer.resolve reg hns now s req
      = Except.ok (R, { s with cache := ⟨⟨s.cache.cache.capacity,
          (toKey qs.name types.TXT, ⟨t, R.compress⟩)
            :: LRU.removeKey s.cache.cache.items (toKey qs.name types.TXT)⟩⟩ }) := by
  have hget : ENSCache.get s.cache now qs.name types.TXT
      = (some R, ⟨⟨s.cache.cache.capacity,
          (toKey qs.name types.TXT, ⟨t, R.compress⟩)
            :: LRU.removeKey s.cache.cache.items (toKey qs.name types.TXT)⟩⟩) :=
    ens_get_found hfind (by show ¬ now > t + freshWindow; omega)
  constructor
  · rw [resolve_hit reg₁ hns₁ now s req qs rest R _ hq hl hget,
      resolve_hit reg₂ hns₂ now s req qs rest R _ hq hl hget]
  · exact resolve_hit reg hns now s req qs rest R _ hq hl hget

/-- Witness for C4: the Scenario B repeat of a cached alice.eth. query
five milliseconds after the entry was stored, under two unrelated
registry/adapter pairs, returning the cached message and leaving the
single-entry cache with the same content. -/
theorem fresh_hit_short_circuits_witness :
    (RecursiveServer.resolve (fun _ => some "0xABCD")
        (fun _ => ⟨1, 0, false, [], []⟩) 10
        ⟨0, ⟨⟨500, [("alice.eth.;16", ⟨5, Message.compress
          ⟨0, 0, false, [⟨"alice.eth.", 16⟩], []⟩⟩)]⟩⟩⟩
        ⟨7, 0, false, [⟨"alice.eth.", 16⟩], []⟩
      = RecursiveServer.resolve (fun _ => none)
        (fun _ => ⟨2, 0, false, [], []⟩) 10
        ⟨0, ⟨⟨500, [("alice.eth.;16", ⟨5, Message.compress
          ⟨0, 0, false, [⟨"alice.eth.", 16⟩], []⟩⟩)]⟩⟩⟩
        ⟨7, 0, false, [⟨"alice.eth.", 16⟩], []⟩) ∧
    RecursiveServer.resolve (fun _ => some "0xABCD")
        (fun _ => ⟨1, 0, false, [], []⟩) 10
        ⟨0, ⟨⟨500, [("alice.eth.;16", ⟨5, Message.compress
          ⟨0, 0, false, [⟨"alice.eth.", 16⟩], []⟩⟩)]⟩⟩⟩
        ⟨7, 0, false, [⟨"alice.eth.", 16⟩], []⟩
      = Except.ok (⟨0, 0, false, [⟨"alice.eth.", 16⟩], []⟩,
          ⟨0, ⟨⟨500, [("alice.eth.;16", ⟨5, Message.compress
            ⟨0, 0, false, [⟨"alice.eth.", 16⟩], []⟩⟩)]⟩⟩⟩) :=
  fresh_hit_short_circuits (fun _ => some "0xABCD") (fun _ => some "0xABCD")
    (fun _ => none) (fun _ => ⟨1, 0, false, [], []⟩)
    (fun _ => ⟨1, 0, false, [], []⟩) (fun _ => ⟨2, 0, false, [], []⟩) 10 5
    ⟨0, ⟨⟨500, [("alice.eth.;16", ⟨5, Message.compress
      ⟨0, 0, false, [⟨"alice.eth.", 16⟩], []⟩⟩)]⟩⟩⟩
    ⟨7, 0, false, [⟨"alice.eth.", 16⟩], []⟩ ⟨"alice.eth.", 16⟩ []
    ⟨0, 0, false, [⟨"alice.eth.", 16⟩], []⟩ rfl (by decide) rfl (by decide)

end HsdEns

namespace HsdEns

/-- C6: cache.get returns absent for any key that was never set (over
any operation sequence from an empty cache in which no set targets
that key), and returns absent for an entry whose set happened more
than six hours before the read — while leaving the stale entry in the
underlying bounded store (the read even promotes it; only the
capacity-driven policy removes entries).  Reads never refresh an
entry's stored time, so the staleness of a key depends only on its
most recent set. -/
theorem cache_get_absent_and_stale_masking :
    (∀ (cap : Nat) (ops : List CacheOp) (N : String) (T : Nat) (now : Nat),
      (∀ op ∈ ops, ∀ now' n t m, op = CacheOp.setOp now' n t m →
        toKey n t ≠ toKey N T) →
      (((ENSCache.create cap).run ops).get now N T).1 = none) ∧
    (∀ (c : ENSCache) (N : String) (T now : Nat) (it : CacheItem),
      c.cache.items.find? (fun p => decide (p.1 = toKey N T))
        = some (toKey N T, it) →
      now > it.time + freshWindow →
      (c.get now N T).1 = none ∧
      ((c.get now N T).2).cache.items.find?
        (fun p => decide (p.1 = toKey N T)) = some (toKey N T, it)) := by
  constructor
  · intro cap ops N T now hops
    have hfree := ens_run_keyFree ops (ENSCache.create cap)
      (by intro p hp; simp [ENSCache.create] at hp) hops
    rw [ens_get_of_keyFree now hfree]
  · intro c N T now it hfind hstale
    exact ens_get_stale hfind hstale

/-- Witness for C6: a get of alice.eth. after only bob.eth. was ever
set is absent, and a get of a seven-hours-old alice.eth. entry is
absent while the entry survives in the store. -/
theorem cache_get_absent_and_stale_masking_witness :
    ((((ENSCache.create 500).run
        [CacheOp.setOp 0 "bob.eth." 16 ⟨0, 0, false, [], []⟩]).get
        1 "alice.eth." 16).1 = none) ∧
    (((⟨⟨500, [("alice.eth.;16", ⟨5, Message.compress
        ⟨0, 0, false, [], []⟩⟩)]⟩⟩ : ENSCache).get 25200005 "alice.eth." 16).1
      = none ∧
    ((((⟨⟨500, [("alice.eth.;16", ⟨5, Message.compress
        ⟨0, 0, false, [], []⟩⟩)]⟩⟩ : ENSCache).get 25200005 "alice.eth."
        16).2).cache.items.find?
      (fun p => decide (p.1 = toKey "alice.eth." 16))
      = some (toKey "alice.eth." 16, ⟨5, Message.compress
        ⟨0, 0, false, [], []⟩⟩))) :=
  ⟨cache_get_absent_and_stale_masking.1 500
      [CacheOp.setOp 0 "bob.eth." 16 ⟨0, 0, false, [], []⟩] "alice.eth." 16 1
      (by
        intro op hop now' n t m heq
        have hx := List.mem_singleton.mp hop
        subst hx
        injection heq with e1 e2 e3 e4
        subst e2
        subst e3
        decide),
    cache_get_absent_and_stale_masking.2
      ⟨⟨500, [("alice.eth.;16", ⟨5, Message.compress ⟨0, 0, false, [], []⟩⟩)]⟩⟩
      "alice.eth." 16 25200005 ⟨5, Message.compress ⟨0, 0, false, [], []⟩⟩
      rfl (by decide)⟩

/-- C8: the cache's cardinality never exceeds its configured capacity
after any sequence of set and get operations from an empty cache of
that capacity (in particular the default 500), and a set of a fresh
distinct key into a full cache keeps the cardinality at the capacity
by evicting exactly one entry, the least-recently-used one (the last
in the recency order). -/
theorem cache_bounded_and_lru_eviction :
    (∀ (cap : Nat) (ops : List CacheOp),
      ((ENSCache.create cap).run ops).cache.items.length ≤ cap) ∧
    (∀ (c : ENSCache) (now : Nat) (N : String) (T : Nat) (R : Message),
      c.cache.items.length = c.cache.capacity →
      (∀ p ∈ c.cache.items, p.1 ≠ toKey N T) →
      1 ≤ c.cache.capacity →
      (ENSCache.set c now N T R).cache.items
        = (toKey N T, ⟨now, R.compress⟩) :: c.cache.items.dropLast ∧
      (ENSCache.set c now N T R).cache.items.length = c.cache.capacity) := by
  constructor
  · intro cap ops
    have h := ens_run_length ops (ENSCache.create cap)
      (by simp [ENSCache.create])
    have h1 := h.1
    rw [h.2] at h1
    exact h1
  · intro c now N T R hfull hfree hcap
    exact ens_set_full hfull hfree hcap

/-- Witness for C8: three distinct sets into a capacity-2 cache stay
within the bound, and a third distinct key set into a full capacity-2
cache evicts exactly the least-recently-used entry. -/
theorem cache_bounded_and_lru_eviction_witness :
    (((ENSCache.create 2).run
      [CacheOp.setOp 0 "a." 16 ⟨0, 0, false, [], []⟩,
        CacheOp.setOp 1 "b." 16 ⟨0, 0, false, [], []⟩,
        CacheOp.setOp 2 "c." 16 ⟨0, 0, false, [], []⟩]).cache.items.length
      ≤ 2) ∧
    ((ENSCache.set
        ⟨⟨2, [("b.;16", ⟨1, Message.compress ⟨0, 0, false, [], []⟩⟩),
          ("a.;16", ⟨0, Message.compress ⟨0, 0, false, [], []⟩⟩)]⟩⟩
        2 "c." 16 ⟨0, 0, false, [], []⟩).cache.items
      = [("c.;16", ⟨2, Message.compress ⟨0, 0, false, [], []⟩⟩),
        ("b.;16", ⟨1, Message.compress ⟨0, 0, false, [], []⟩⟩)] ∧
    (ENSCache.set
        ⟨⟨2, [("b.;16", ⟨1, Message.compress ⟨0, 0, false, [], []⟩⟩),
          ("a.;16", ⟨0, Message.compress ⟨0, 0, false, [], []⟩⟩)]⟩⟩
        2 "c." 16 ⟨0, 0, false, [], []⟩).cache.items.length = 2) :=
  ⟨cache_bounded_and_lru_eviction.1 2
      [CacheOp.setOp 0 "a." 16 ⟨0, 0, false, [], []⟩,
        CacheOp.setOp 1 "b." 16 ⟨0, 0, false, [], []⟩,
        CacheOp.setOp 2 "c." 16 ⟨0, 0, false, [], []⟩],
    cache_bounded_and_lru_eviction.2
      ⟨⟨2, [("b.;16", ⟨1, Message.compress ⟨0, 0, false, [], []⟩⟩),
        ("a.;16", ⟨0, Message.compress ⟨0, 0, false, [], []⟩⟩)]⟩⟩
      2 "c." 16 ⟨0, 0, false, [], []⟩ rfl (by decide) (by decide)⟩

end HsdEns
